import Mathlib

/-!
Shallow embedding of the SAT datatypes of this repository
(`datatypes.py`, `vocabulary.py`): literal collections, DIMACS
clause/assignment/formula (de)serialization, and the vocabulary builder.
Strings are modelled as lists of characters, Python exceptions as an
explicit error type, and the Python string primitives used by the code
(`split`, `rstrip`, `startswith`, `int()`, `str()`) are embedded below.
-/

deriving instance DecidableEq for Except

namespace NSC

/-- Python strings, modelled as lists of characters. -/
abbrev Str := List Char

/-- Convert a Lean string literal to the character-list model. -/
def chars (s : String) : Str := s.data

/-- Python `s.split(sep)` for a single-character separator: never collapses
separators and yields `[""]` on the empty string. -/
def pySplit (sep : Char) : Str → List Str
  | [] => [[]]
  | c :: cs =>
    let r := pySplit sep cs
    if c = sep then [] :: r
    else
      match r with
      | [] => [[c]]
      | h :: t => (c :: h) :: t

/-- Python `s.rstrip(cs)`: remove trailing characters satisfying `p`. -/
def rstrip (p : Char → Bool) (s : Str) : Str := (s.reverse.dropWhile p).reverse

/-- Python `s.startswith(pre)`. -/
def startswith (pre s : Str) : Bool := pre.isPrefixOf s

/-- ASCII decimal digit test (the digits accepted by Python `int()` and
`str.isdigit` in the ASCII range). -/
def isDigitB (c : Char) : Bool := '0' ≤ c && c ≤ '9'

/-- Python whitespace stripped by `int()`. -/
def isWs (c : Char) : Bool :=
  c = ' ' || c = '\t' || c = '\n' || c = '\r' || c = Char.ofNat 11 || c = Char.ofNat 12

/-- Numeric value of a digit character. -/
def digitVal (c : Char) : Nat := c.toNat - 48

/-- Value of a string of digit characters, most significant first. -/
def digitsVal (s : Str) : Nat := s.foldl (fun a c => a * 10 + digitVal c) 0

/-- The digit character for a value below ten. -/
def digitChar (d : Nat) : Char :=
  match d with
  | 0 => '0' | 1 => '1' | 2 => '2' | 3 => '3' | 4 => '4'
  | 5 => '5' | 6 => '6' | 7 => '7' | 8 => '8' | _ => '9'

/-- Decimal digits of a positive number (fuel-based division loop). -/
def natToStrAux : Nat → Nat → Str
  | 0, _ => []
  | fuel + 1, n => if n = 0 then [] else natToStrAux fuel (n / 10) ++ [digitChar (n % 10)]

/-- Python `str(n)` for a natural number. -/
def natToStr (n : Nat) : Str := if n = 0 then ['0'] else natToStrAux n n

/-- Python `str(i)` for an integer. -/
def intToStr (i : Int) : Str :=
  if i < 0 then '-' :: natToStr i.natAbs else natToStr i.natAbs

/-- Python `" ".join`-style joining with a single-character separator. -/
def joinC (sep : Char) : List Str → Str
  | [] => []
  | [t] => t
  | t :: ts => t ++ sep :: joinC sep ts

/-- Parse a nonempty all-digit string, else fail. -/
def pyNatDigits (s : Str) : Option Nat :=
  match s with
  | [] => none
  | _ => if s.all isDigitB then some (digitsVal s) else none

/-- Python `s.strip()` of surrounding whitespace (as done by `int()`). -/
def pyStrip (s : Str) : Str := rstrip isWs (s.dropWhile isWs)

/-- Python `int(s)`: optional surrounding whitespace, optional sign,
then a nonempty digit string; `none` models a `ValueError`. -/
def pyInt (s : Str) : Option Int :=
  let t := pyStrip s
  if t.head? = some '+' then (pyNatDigits t.tail).map (fun n => (n : Int))
  else if t.head? = some '-' then (pyNatDigits t.tail).map (fun n => -(n : Int))
  else (pyNatDigits t).map (fun n => (n : Int))

/-- Python exceptions raised by the code: `ParsingException` (with its
message), `ValueError` (with its message), and `IndexError`. -/
inductive PyError where
  | parsingException (msg : Str)
  | valueError (msg : Str)
  | indexError
deriving DecidableEq

/-- Embeds `Literals.__init__` (datatypes.py:40-47): reject literal lists whose
atoms (absolute values) are not pairwise distinct, then reject a zero
literal; otherwise store the list as given. -/
def Literals.init (lits : List Int) : Except PyError (List Int) :=
  if (lits.map Int.natAbs).dedup.length ≠ lits.length then
    .error (.parsingException (chars "Literals not distinct or a tautology"))
  else if 0 ∈ lits then
    .error (.parsingException (chars "0 cannot be a literal"))
  else .ok lits

/-- Convert every token with Python `int()`, failing on the first bad one
(the `try` around the list comprehension in `Literals.from_strs`). -/
def pyIntList : List Str → Option (List Int)
  | [] => some []
  | s :: rest =>
    match pyInt s, pyIntList rest with
    | some n, some ns => some (n :: ns)
    | _, _ => none

/-- Embeds `Literals.from_strs` (datatypes.py:52-59). -/
def Literals.from_strs (lit_strs : List Str) : Except PyError (List Int) :=
  match pyIntList lit_strs with
  | none => .error (.parsingException (chars "Non-integer in literal list"))
  | some lits => Literals.init lits

/-- Embeds `Literals.max_var` (datatypes.py:62-64): `abs(max(lits, key=abs))`,
i.e. the largest absolute value; `max` on an empty list raises
`ValueError`. -/
def Literals.max_varE (lits : List Int) : Except PyError Int :=
  match lits with
  | [] => .error (.valueError (chars "max() arg is an empty sequence"))
  | l :: rest => .ok (rest.foldl (fun a b => max a (b.natAbs : Int)) (l.natAbs : Int))

/-- The set-based equality of `Literals.__eq__`: same literals regardless
of order. -/
def litsSetEqb (a b : List Int) : Bool :=
  a.all (fun x => decide (x ∈ b)) && b.all (fun x => decide (x ∈ a))

/-- Embeds `Clause.to_str` (datatypes.py:113-115): literals joined by single
spaces, a space before the terminating `0` only when nonempty. -/
def Clause.to_str (lits : List Int) : Str :=
  joinC ' ' (lits.map intToStr) ++ (if lits = [] then [] else [' ']) ++ ['0']

/-- Embeds `Clause.from_str` (datatypes.py:120-123): strip trailing `0`
characters, then trailing spaces, split on spaces, and build the
literal list. -/
def Clause.from_str (s : Str) : Except PyError (List Int) :=
  Literals.from_strs (pySplit ' ' (rstrip (· = ' ') (rstrip (· = '0') s)))

/-- Embeds `SATAssignment.to_str` (datatypes.py:137-138): `"v " + joined + " 0"`. -/
def SATAssignment.to_str (lits : List Int) : Str :=
  chars "v " ++ joinC ' ' (lits.map intToStr) ++ chars " 0"

/-- The token scan of one assignment line (datatypes.py:149-154):
accumulate tokens until the token `0`; the boolean is `read_zero`. -/
def scanTokens : List Str → List Str → (List Str × Bool)
  | [], acc => (acc, false)
  | v :: rest, acc =>
    if v = chars "0" then (acc, true) else scanTokens rest (acc ++ [v])

/-- The line loop of `SATAssignment.from_str` (datatypes.py:143-160):
each line must start with `v`; tokens after the first are accumulated
until a `0` token, at which point the accumulated tokens are parsed and
the remaining lines are ignored. -/
def SATAssignment.fromLines : List Str → List Str → Except PyError (List Int)
  | [], _ => .error (.parsingException (chars "Assignment string does not end with zero"))
  | l :: rest, acc =>
    if startswith (chars "v") l = false then
      .error (.parsingException (chars "New line does not start with v"))
    else
      let r := scanTokens (pySplit ' ' l).tail acc
      if r.2 then Literals.from_strs r.1 else SATAssignment.fromLines rest r.1

/-- Embeds `SATAssignment.from_str` (datatypes.py:143-160). -/
def SATAssignment.from_str (s : Str) : Except PyError (List Int) :=
  SATAssignment.fromLines (pySplit '\n' s) []

/-- State of a `CNFFormula`: the clause list, the comments, and the `_num_vars`
field (set to `None` by the constructor and never assigned elsewhere). -/
structure CNFFormula where
  clauses : List (List Int)
  comments : List Str
  num_vars : Option Int
deriving DecidableEq

/-- Embeds `CNFFormula.nbclauses` (datatypes.py:191-193). -/
def CNFFormula.nbclauses (f : CNFFormula) : Nat := f.clauses.length

/-- Evaluate `max_var` on every clause left to right, propagating the
first failure (the generator inside `max(...)`). -/
def maxVarList : List (List Int) → Except PyError (List Int)
  | [] => .ok []
  | c :: rest =>
    match Literals.max_varE c, maxVarList rest with
    | .error e, _ => .error e
    | .ok _, .error e => .error e
    | .ok v, .ok vs => .ok (v :: vs)

/-- Embeds `max(c.max_var for c in clauses)` (datatypes.py:195-200): raises on an
empty clause list, otherwise the running maximum, with a clause-level
failure (empty clause) propagated. -/
def CNFFormula.derivedVars (cs : List (List Int)) : Except PyError Int :=
  match cs with
  | [] => .error (.valueError (chars "max() arg is an empty sequence"))
  | c :: rest =>
    match Literals.max_varE c, maxVarList rest with
    | .error e, _ => .error e
    | .ok _, .error e => .error e
    | .ok v, .ok vs => .ok (vs.foldl max v)

/-- Embeds `CNFFormula.nbvars` (datatypes.py:195-200): the `_num_vars` field when
truthy (non-`None` and nonzero), else the derived maximum over the
clauses. -/
def CNFFormula.nbvarsE (f : CNFFormula) : Except PyError Int :=
  match f.num_vars with
  | some v => if v ≠ 0 then .ok v else CNFFormula.derivedVars f.clauses
  | none => CNFFormula.derivedVars f.clauses

/-- The line loop of `CNFFormula.from_str` (datatypes.py:208-221): state is
`(nbvars, nbclauses, clauses, comments)`, both counts starting at `-1`. -/
def scanLines : List Str → Int → Int → List (List Int) → List Str →
    Except PyError (Int × Int × List (List Int) × List Str)
  | [], nv, nc, cs, cos => .ok (nv, nc, cs, cos)
  | line :: rest, nv, nc, cs, cos =>
    if startswith (chars "c") line then
      scanLines rest nv nc cs (cos ++ [line.drop 2])
    else if startswith (chars "p") line then
      let header := pySplit ' ' line
      if nv ≠ -1 ∨ nc ≠ -1 then
        .error (.parsingException (chars "could not read header"))
      else
        match header[1]? with
        | none => .error .indexError
        | some h1 =>
          if h1 ≠ chars "cnf" then
            .error (.parsingException (chars "could not read header"))
          else
            match header[2]? with
            | none => .error .indexError
            | some h2 =>
              match pyInt h2 with
              | none => .error (.valueError (chars "invalid literal for int"))
              | some v =>
                match header[3]? with
                | none => .error .indexError
                | some h3 =>
                  match pyInt h3 with
                  | none => .error (.valueError (chars "invalid literal for int"))
                  | some c => scanLines rest v c cs cos
    else
      match Clause.from_str line with
      | .error e => .error e
      | .ok cl => scanLines rest nv nc (cs ++ [cl]) cos

/-- Embeds `CNFFormula.from_str` (datatypes.py:202-237): strip trailing newlines
and spaces, scan the lines, then check header presence, the declared
clause count, and the declared variable count.  Note `cls(clauses)`
drops the collected comments and leaves `_num_vars = None`. -/
def CNFFormula.from_str (s : Str) : Except PyError CNFFormula :=
  match scanLines (pySplit '\n' (rstrip (fun c => c = '\n' || c = ' ') s)) (-1) (-1) [] [] with
  | .error e => .error e
  | .ok (nv, nc, cs, _) =>
    let formula : CNFFormula := ⟨cs, [], none⟩
    if nc = -1 ∨ nv = -1 then
      .error (.parsingException (chars "No header found"))
    else if nc ≠ (formula.nbclauses : Int) then
      .error (.parsingException
        (chars "Specified number of clauses does not match parsed number of clauses"))
    else
      match CNFFormula.nbvarsE formula with
      | .error e => .error e
      | .ok v =>
        if nv ≠ v then
          .error (.parsingException
            (chars "Specified number of variables does not match parsed number of variables"))
        else .ok formula

/-- Embeds `CNFFormula.to_str` (datatypes.py:239-244): comment lines, then the
header (whose `nbvars` evaluation can raise), then the clause lines. -/
def CNFFormula.to_strE (f : CNFFormula) : Except PyError Str :=
  match CNFFormula.nbvarsE f with
  | .error e => .error e
  | .ok v =>
    .ok ((f.comments.map (fun co => 'c' :: ' ' :: co ++ ['\n'])).foldr (· ++ ·) []
      ++ chars "p cnf " ++ intToStr v ++ [' '] ++ natToStr f.nbclauses ++ ['\n']
      ++ (f.clauses.map (fun cl => Clause.to_str cl ++ ['\n'])).foldr (· ++ ·) [])

/-- Embeds `CNFFormula.__eq__` (datatypes.py:257-260): the clause sets are equal,
where each clause compares as a set of literals. -/
def formulaEqb (f g : CNFFormula) : Bool :=
  f.clauses.all (fun c => g.clauses.any (fun d => litsSetEqb c d)) &&
  g.clauses.all (fun c => f.clauses.any (fun d => litsSetEqb c d))

/-- A vocabulary (vocabulary.py): the token-to-id mapping, a Python dict
modelled as an association list with distinct keys in insertion order. -/
structure Vocabulary where
  mapping : List (Str × Int)
deriving DecidableEq

/-- Python dict lookup on the association-list model. -/
def dictLookup (m : List (Str × Int)) (k : Str) : Option Int :=
  (m.find? (fun p => p.1 = k)).map (·.2)

/-- Python dict construction from a sequence of pairs: a later pair with
the same key overwrites the stored value in place. -/
def dictInsert (m : List (Str × Int)) (k : Str) (v : Int) : List (Str × Int) :=
  if m.any (fun p => p.1 = k) then
    m.map (fun p => if p.1 = k then (k, v) else p)
  else m ++ [(k, v)]

/-- Build a Python dict from pairs in order. -/
def dictOf (ps : List (Str × Int)) : List (Str × Int) :=
  ps.foldl (fun m p => dictInsert m p.1 p.2) []

/-- Embeds `Vocabulary.to_vocab` (vocabulary.py:39-47): map each token through
the mapping, raising `ValueError` naming the token if absent. -/
def Vocabulary.to_vocab (vo : Vocabulary) : List Str → Except PyError (List Int)
  | [] => .ok []
  | t :: rest =>
    match dictLookup vo.mapping t with
    | none => .error (.valueError (chars "Unable to read " ++ t))
    | some i =>
      match Vocabulary.to_vocab vo rest with
      | .error e => .error e
      | .ok is' => .ok (i :: is')

/-- The reverse dict `{v: k for k, v in mapping.items()}` looked up at an
id: a later entry overwrites an earlier one with the same id, so the
lookup finds the last pair carrying that id. -/
def revLookup (m : List (Str × Int)) (i : Int) : Option Str :=
  (m.reverse.find? (fun p => p.2 = i)).map (·.1)

/-- Embeds `Vocabulary.from_vocab` (vocabulary.py:49-59): map each id through the
reverse mapping, raising `ValueError` naming the id if absent. -/
def Vocabulary.from_vocab (vo : Vocabulary) : List Int → Except PyError (List Str)
  | [] => .ok []
  | i :: rest =>
    match revLookup vo.mapping i with
    | none => .error (.valueError (chars "Unable to read " ++ intToStr i))
    | some t =>
      match Vocabulary.from_vocab vo rest with
      | .error e => .error e
      | .ok ts => .ok (t :: ts)

/-- Python `str.isdigit` in the ASCII range: nonempty and all digits. -/
def isdigitStr (s : Str) : Bool := !s.isEmpty && s.all isDigitB

/-- Lexicographic strict order on strings by character code
(Python string `<`). -/
def strLtb : Str → Str → Bool
  | [], [] => false
  | [], _ :: _ => true
  | _ :: _, [] => false
  | a :: as', b :: bs =>
    if a < b then true else if b < a then false else strLtb as' bs

/-- Insert into a list sorted by the boolean relation `le`. -/
def insOrd (le : α → α → Bool) (x : α) : List α → List α
  | [] => [x]
  | y :: ys => if le x y then x :: y :: ys else y :: insOrd le x ys

/-- Insertion sort by the boolean relation `le` (Python `sorted` on
pairwise-distinct inputs). -/
def insSort (le : α → α → Bool) : List α → List α
  | [] => []
  | x :: xs => insOrd le x (insSort le xs)

/-- The `sorted_tokens` expression of `Vocabulary.collect_vocab`
(vocabulary.py:35): non-digit tokens sorted descending, then the digit
tokens converted to integers, sorted ascending, and converted back with
`str`. -/
def sortedTokens (tokens : List Str) : List Str :=
  insSort (fun a b => strLtb b a || decide (a = b)) (tokens.filter (fun t => !isdigitStr t))
    ++ (insSort (fun a b => a ≤ b) ((tokens.filter isdigitStr).map digitsVal)).map natToStr

/-- The id assignment `{item: idx + 1 for idx, item in enumerate(...)}`
of `Vocabulary.collect_vocab` (vocabulary.py:36), applied to the distinct
collected tokens. -/
def collect_mapping (tokens : List Str) : List (Str × Int) :=
  dictOf ((sortedTokens tokens).enum.map (fun p => (p.2, (p.1 : Int) + 1)))

/-- Keys of a mapping. -/
def vocabKeys (m : List (Str × Int)) : List Str := m.map (·.1)

/-- Values of a mapping. -/
def vocabValues (m : List (Str × Int)) : List Int := m.map (·.2)

/-! ### Lemmas about digits and the `str`/`int` conversions -/

theorem digitChar_isDigitB (d : Nat) (h : d < 10) : isDigitB (digitChar d) = true := by
  interval_cases d <;> decide

theorem digitVal_digitChar (d : Nat) (h : d < 10) : digitVal (digitChar d) = d := by
  interval_cases d <;> decide

theorem digitsVal_snoc (s : Str) (c : Char) :
    digitsVal (s ++ [c]) = digitsVal s * 10 + digitVal c := by
  simp [digitsVal, List.foldl_append]

theorem isDigitB_ne {c d : Char} (h : isDigitB c = true) (hd : isDigitB d = false) :
    c ≠ d := by
  intro he; rw [he, hd] at h; exact Bool.false_ne_true h

theorem natToStrAux_spec :
    ∀ fuel n, 0 < n → n ≤ fuel →
      digitsVal (natToStrAux fuel n) = n ∧ natToStrAux fuel n ≠ [] ∧
      ∀ c ∈ natToStrAux fuel n, isDigitB c = true := by
  intro fuel
  induction fuel with
  | zero => intro n h1 h2; omega
  | succ f ih =>
    intro n h1 h2
    have hn : ¬ n = 0 := by omega
    have hmod : n % 10 < 10 := Nat.mod_lt _ (by norm_num)
    simp only [natToStrAux, if_neg hn]
    by_cases hq : n / 10 = 0
    · have hlt : n < 10 := by omega
      have hz : natToStrAux f (n / 10) = [] := by
        cases f <;> simp [natToStrAux, hq]
      rw [hz]
      have hm : n % 10 = n := Nat.mod_eq_of_lt hlt
      refine ⟨?_, by simp, ?_⟩
      · rw [hm]
        simp [digitsVal]
        exact digitVal_digitChar n hlt
      · intro c hc
        simp at hc
        rw [hc]
        exact digitChar_isDigitB _ hmod
    · have hqpos : 0 < n / 10 := Nat.pos_of_ne_zero hq
      have hqle : n / 10 ≤ f := by
        have := Nat.div_lt_self h1 (by norm_num : (1:Nat) < 10)
        omega
      obtain ⟨hval, hne, hdig⟩ := ih (n / 10) hqpos hqle
      refine ⟨?_, by simp [hne], ?_⟩
      · rw [digitsVal_snoc, hval, digitVal_digitChar _ hmod]
        omega
      · intro c hc
        rcases List.mem_append.mp hc with h | h
        · exact hdig c h
        · simp at h; rw [h]; exact digitChar_isDigitB _ hmod

theorem natToStr_spec (n : Nat) :
    digitsVal (natToStr n) = n ∧ natToStr n ≠ [] ∧
    ∀ c ∈ natToStr n, isDigitB c = true := by
  by_cases h : n = 0
  · subst h; refine ⟨by decide, by decide, ?_⟩
    intro c hc; simp [natToStr] at hc; rw [hc]; decide
  · simp only [natToStr, if_neg h]
    exact natToStrAux_spec n n (Nat.pos_of_ne_zero h) le_rfl

theorem digitsVal_natToStr (n : Nat) : digitsVal (natToStr n) = n := (natToStr_spec n).1

theorem natToStr_ne_nil (n : Nat) : natToStr n ≠ [] := (natToStr_spec n).2.1

theorem natToStr_all_digit (n : Nat) : ∀ c ∈ natToStr n, isDigitB c = true :=
  (natToStr_spec n).2.2

theorem natToStr_injective : Function.Injective natToStr := by
  intro a b h
  have := congrArg digitsVal h
  rwa [digitsVal_natToStr, digitsVal_natToStr] at this

theorem pyNatDigits_natToStr (n : Nat) : pyNatDigits (natToStr n) = some n := by
  obtain ⟨hval, hne, hdig⟩ := natToStr_spec n
  cases hs : natToStr n with
  | nil => exact absurd hs hne
  | cons c rest =>
    rw [hs] at hval hdig
    simp only [pyNatDigits]
    rw [if_pos (List.all_eq_true.mpr hdig), hval]

theorem mem_intToStr {c : Char} {l : Int} (h : c ∈ intToStr l) :
    c = '-' ∨ isDigitB c = true := by
  by_cases hl : l < 0
  · simp only [intToStr, if_pos hl] at h
    rcases List.mem_cons.mp h with h | h
    · exact Or.inl h
    · exact Or.inr (natToStr_all_digit _ c h)
  · simp only [intToStr, if_neg hl] at h
    exact Or.inr (natToStr_all_digit _ c h)

theorem isWs_of_not_digit_dash {c : Char} (h : c = '-' ∨ isDigitB c = true) :
    isWs c = false := by
  rcases h with h | h
  · rw [h]; decide
  · cases hw : isWs c
    · rfl
    · exfalso
      have hcs : c = ' ' ∨ c = '\t' ∨ c = '\n' ∨ c = '\r' ∨
          c = Char.ofNat 11 ∨ c = Char.ofNat 12 := by
        simpa [isWs, or_assoc] using hw
      rcases hcs with h' | h' | h' | h' | h' | h' <;> rw [h'] at h <;>
        exact absurd h (by decide)

theorem intToStr_not_space {c : Char} {l : Int} (h : c ∈ intToStr l) : c ≠ ' ' := by
  rcases mem_intToStr h with h' | h'
  · rw [h']; decide
  · exact isDigitB_ne h' (by decide)

theorem intToStr_not_newline {c : Char} {l : Int} (h : c ∈ intToStr l) : c ≠ '\n' := by
  rcases mem_intToStr h with h' | h'
  · rw [h']; decide
  · exact isDigitB_ne h' (by decide)

theorem intToStr_ne_nil (l : Int) : intToStr l ≠ [] := by
  by_cases hl : l < 0 <;> simp [intToStr, hl, natToStr_ne_nil]

/-! ### Lemmas about `rstrip`, `dropWhile`, `pyStrip` -/

theorem dropWhile_eq_self_of_all {p : Char → Bool} {s : Str}
    (h : ∀ c ∈ s, p c = false) : s.dropWhile p = s := by
  cases s with
  | nil => rfl
  | cons c cs => rw [List.dropWhile_cons, h c (List.mem_cons_self c cs)]; simp

theorem rstrip_eq_self_of_all {p : Char → Bool} {s : Str}
    (h : ∀ c ∈ s, p c = false) : rstrip p s = s := by
  unfold rstrip
  rw [dropWhile_eq_self_of_all (fun c hc => h c (List.mem_reverse.mp hc))]
  exact s.reverse_reverse

theorem rstrip_snoc_pos {p : Char → Bool} {c : Char} (s : Str) (h : p c = true) :
    rstrip p (s ++ [c]) = rstrip p s := by
  unfold rstrip
  rw [List.reverse_append]
  simp [List.dropWhile_cons, h]

theorem rstrip_snoc_neg {p : Char → Bool} {c : Char} (s : Str) (h : p c = false) :
    rstrip p (s ++ [c]) = s ++ [c] := by
  unfold rstrip
  rw [List.reverse_append]
  simp [List.dropWhile_cons, h]

theorem pyStrip_eq_self {s : Str} (h : ∀ c ∈ s, isWs c = false) : pyStrip s = s := by
  unfold pyStrip
  rw [dropWhile_eq_self_of_all h]
  exact rstrip_eq_self_of_all h

theorem pyInt_intToStr (l : Int) : pyInt (intToStr l) = some l := by
  have hws : ∀ c ∈ intToStr l, isWs c = false :=
    fun c hc => isWs_of_not_digit_dash (mem_intToStr hc)
  have hstrip : pyStrip (intToStr l) = intToStr l := pyStrip_eq_self hws
  by_cases hl : l < 0
  · have hrep : intToStr l = '-' :: natToStr l.natAbs := by simp [intToStr, hl]
    rw [hrep] at hstrip ⊢
    simp only [pyInt, hstrip, List.head?_cons, List.tail_cons]
    rw [if_pos trivial, pyNatDigits_natToStr]
    show some (-(l.natAbs : Int)) = some l
    congr 1
    omega
  · have hrep : intToStr l = natToStr l.natAbs := by simp [intToStr, hl]
    obtain ⟨hval, hne, hdig⟩ := natToStr_spec l.natAbs
    cases hs : natToStr l.natAbs with
    | nil => exact absurd hs hne
    | cons c rest =>
      have hc : isDigitB c = true := hdig c (hs ▸ List.mem_cons_self c rest)
      rw [hrep, hs] at hstrip ⊢
      have h1 : ¬ ((c :: rest).head? = some '+') := by
        rw [List.head?_cons]
        intro hEq
        exact isDigitB_ne hc (by decide) (Option.some_inj.mp hEq)
      have h2 : ¬ ((c :: rest).head? = some '-') := by
        rw [List.head?_cons]
        intro hEq
        exact isDigitB_ne hc (by decide) (Option.some_inj.mp hEq)
      simp only [pyInt, hstrip]
      rw [if_neg h1, if_neg h2, ← hs, pyNatDigits_natToStr]
      show some ((l.natAbs : Nat) : Int) = some l
      congr 1
      omega

theorem pyInt_natToStr (n : Nat) : pyInt (natToStr n) = some (n : Int) := by
  have h := pyInt_intToStr (n : Int)
  rwa [show intToStr (n : Int) = natToStr n by
    simp [intToStr, Int.natAbs_ofNat, show ¬ ((n : Int) < 0) by omega]] at h

/-! ### Lemmas about `pySplit` and `joinC` -/

theorem pySplit_ne_nil (sep : Char) (s : Str) : pySplit sep s ≠ [] := by
  induction s with
  | nil => simp [pySplit]
  | cons c cs ih =>
    by_cases hc : c = sep
    · simp [pySplit, hc]
    · cases hr : pySplit sep cs with
      | nil => simp [pySplit, hc, hr]
      | cons h t => simp [pySplit, hc, hr]

theorem pySplit_sep_cons (sep : Char) (z : Str) :
    pySplit sep (sep :: z) = [] :: pySplit sep z := by
  simp [pySplit]

theorem pySplit_append_sep {sep : Char} {t : Str} (ht : sep ∉ t) (z : Str) :
    pySplit sep (t ++ sep :: z) = t :: pySplit sep z := by
  induction t with
  | nil => simpa using pySplit_sep_cons sep z
  | cons c cs ih =>
    have hc : ¬ c = sep := fun h => ht (h ▸ List.mem_cons_self c cs)
    have ih' := ih (fun h => ht (List.mem_cons_of_mem c h))
    simp only [List.cons_append, pySplit, if_neg hc]
    have ih'' : pySplit sep (cs.append (sep :: z)) = cs :: pySplit sep z := ih'
    rw [ih'']

theorem pySplit_no_sep {sep : Char} {t : Str} (ht : sep ∉ t) :
    pySplit sep t = [t] := by
  induction t with
  | nil => rfl
  | cons c cs ih =>
    have hc : ¬ c = sep := fun h => ht (h ▸ List.mem_cons_self c cs)
    have ih' := ih (fun h => ht (List.mem_cons_of_mem c h))
    simp only [pySplit, if_neg hc, ih']

theorem joinC_cons₂ (sep : Char) (t u : Str) (ts : List Str) :
    joinC sep (t :: u :: ts) = t ++ sep :: joinC sep (u :: ts) := rfl

theorem pySplit_joinC {sep : Char} :
    ∀ {ts : List Str}, ts ≠ [] → (∀ t ∈ ts, sep ∉ t) →
      pySplit sep (joinC sep ts) = ts := by
  intro ts
  induction ts with
  | nil => intro h; exact absurd rfl h
  | cons t rest ih =>
    intro _ hall
    cases rest with
    | nil => exact pySplit_no_sep (hall t (List.mem_cons_self t []))
    | cons u rs =>
      rw [joinC_cons₂, pySplit_append_sep (hall t (List.mem_cons_self t _))]
      rw [ih (by simp) (fun x hx => hall x (List.mem_cons_of_mem t hx))]

theorem joinC_eq_append_last (sep : Char) (t : Str) :
    ∀ ts : List Str, ∃ pre, joinC sep (ts ++ [t]) = pre ++ t := by
  intro ts
  induction ts with
  | nil => exact ⟨[], rfl⟩
  | cons a as ih =>
    obtain ⟨pre, hpre⟩ := ih
    cases as with
    | nil => exact ⟨a ++ [sep], by simp [joinC]⟩
    | cons b bs =>
      refine ⟨a ++ sep :: pre, ?_⟩
      have h1 : (a :: b :: bs) ++ [t] = a :: b :: (bs ++ [t]) := by simp
      rw [h1, joinC_cons₂]
      rw [List.cons_append] at hpre
      rw [hpre]
      simp

theorem joinC_cons_head (sep : Char) (t : Str) (ts : List Str) :
    ∃ z, joinC sep (t :: ts) = t ++ z := by
  cases ts with
  | nil => exact ⟨[], by simp [joinC]⟩
  | cons u rs => exact ⟨sep :: joinC sep (u :: rs), rfl⟩

theorem mem_joinC {sep : Char} {c : Char} :
    ∀ {ts : List Str}, c ∈ joinC sep ts → c = sep ∨ ∃ t ∈ ts, c ∈ t := by
  intro ts
  induction ts with
  | nil => intro h; simp [joinC] at h
  | cons t rest ih =>
    intro h
    cases rest with
    | nil =>
      simp only [joinC] at h
      exact Or.inr ⟨t, List.mem_cons_self t [], h⟩
    | cons u rs =>
      rw [joinC_cons₂] at h
      rcases List.mem_append.mp h with h | h
      · exact Or.inr ⟨t, List.mem_cons_self t _, h⟩
      · rcases List.mem_cons.mp h with h | h
        · exact Or.inl h
        · rcases ih h with h | ⟨x, hx, hcx⟩
          · exact Or.inl h
          · exact Or.inr ⟨x, List.mem_cons_of_mem t hx, hcx⟩

/-! ### The clause serialization round trip -/

theorem pyIntList_map_intToStr (lits : List Int) :
    pyIntList (lits.map intToStr) = some lits := by
  induction lits with
  | nil => rfl
  | cons l ls ih => simp [pyIntList, pyInt_intToStr, ih]

theorem intToStr_snoc_digit (l : Int) :
    ∃ pre c, intToStr l = pre ++ [c] ∧ isDigitB c = true := by
  have hspec := natToStr_spec l.natAbs
  obtain ⟨hval, hne, hdig⟩ := hspec
  have : ∃ pre c, natToStr l.natAbs = pre ++ [c] ∧ isDigitB c = true := by
    refine ⟨(natToStr l.natAbs).dropLast, (natToStr l.natAbs).getLast hne,
      (List.dropLast_append_getLast hne).symm, ?_⟩
    exact hdig _ (List.getLast_mem hne)
  obtain ⟨pre, c, hrep, hc⟩ := this
  by_cases hl : l < 0
  · exact ⟨'-' :: pre, c, by simp [intToStr, hl, hrep], hc⟩
  · exact ⟨pre, c, by simp [intToStr, hl, hrep], hc⟩

theorem joinC_map_intToStr_no_space (lits : List Int) {c : Char}
    (h : c ∈ joinC ' ' (lits.map intToStr)) : c = ' ' ∨ (c = '-' ∨ isDigitB c = true) := by
  rcases mem_joinC h with h | ⟨t, ht, hct⟩
  · exact Or.inl h
  · obtain ⟨l, _, rfl⟩ := List.mem_map.mp ht
    exact Or.inr (mem_intToStr hct)

/-- The joined literal tokens end with a digit character (when nonempty). -/
theorem joinC_intToStr_snoc (lits : List Int) (hne : lits ≠ []) :
    ∃ pre c, joinC ' ' (lits.map intToStr) = pre ++ [c] ∧ isDigitB c = true := by
  obtain ⟨last, init, hrep⟩ : ∃ last init, lits = init ++ [last] :=
    ⟨lits.getLast hne, lits.dropLast, (List.dropLast_append_getLast hne).symm⟩
  obtain ⟨pre1, hpre1⟩ := joinC_eq_append_last ' ' (intToStr last) (init.map intToStr)
  obtain ⟨pre2, c, hpre2, hc⟩ := intToStr_snoc_digit last
  refine ⟨pre1 ++ pre2, c, ?_, hc⟩
  rw [hrep]
  simp only [List.map_append, List.map_cons, List.map_nil]
  rw [hpre1, hpre2]
  simp

/-- Parsing the serialization of a nonempty valid clause gives back exactly
the same literal list. -/
theorem clause_to_from (lits : List Int) (hv : Literals.init lits = .ok lits)
    (hne : lits ≠ []) : Clause.from_str (Clause.to_str lits) = .ok lits := by
  have hto : Clause.to_str lits =
      (joinC ' ' (lits.map intToStr) ++ [' ']) ++ ['0'] := by
    simp [Clause.to_str, if_neg hne]
  obtain ⟨pre, c, hrep, hc⟩ := joinC_intToStr_snoc lits hne
  have hsplit : pySplit ' ' (joinC ' ' (lits.map intToStr)) = lits.map intToStr :=
    pySplit_joinC (by simpa using hne) (by
      intro t ht hmem
      obtain ⟨l, _, rfl⟩ := List.mem_map.mp ht
      exact intToStr_not_space hmem rfl)
  rw [Clause.from_str, hto]
  rw [rstrip_snoc_pos _ (by decide), rstrip_snoc_neg _ (by decide),
    rstrip_snoc_pos _ (by decide), hrep,
    rstrip_snoc_neg _ (decide_eq_false (isDigitB_ne hc (by decide))),
    ← hrep, hsplit]
  simp [Literals.from_strs, pyIntList_map_intToStr, hv]

/-! ### Line-scanning lemmas for the formula parser -/

theorem startswith_cons_self (c : Char) (s : Str) : startswith [c] (c :: s) = true := by
  simp [startswith, List.isPrefixOf]

theorem startswith_cons_ne {c d : Char} (h : c ≠ d) (s : Str) :
    startswith [c] (d :: s) = false := by
  have hb : (c == d) = false := beq_eq_false_iff_ne.mpr h
  simp [startswith, List.isPrefixOf, hb]

theorem intToStr_head (l : Int) :
    ∃ ch r, intToStr l = ch :: r ∧ (ch = '-' ∨ isDigitB ch = true) := by
  by_cases hl : l < 0
  · exact ⟨'-', natToStr l.natAbs, by simp [intToStr, hl], Or.inl rfl⟩
  · obtain ⟨hval, hne, hdig⟩ := natToStr_spec l.natAbs
    cases hs : natToStr l.natAbs with
    | nil => exact absurd hs hne
    | cons c rest =>
      exact ⟨c, rest, by simp [intToStr, hl, hs],
        Or.inr (hdig c (hs ▸ List.mem_cons_self c rest))⟩

theorem clause_to_str_head (cl : List Int) (hne : cl ≠ []) :
    ∃ ch z, Clause.to_str cl = ch :: z ∧ (ch = '-' ∨ isDigitB ch = true) := by
  cases cl with
  | nil => exact absurd rfl hne
  | cons l ls =>
    obtain ⟨z0, hz0⟩ := joinC_cons_head ' ' (intToStr l) (ls.map intToStr)
    obtain ⟨ch, r, hrep, hch⟩ := intToStr_head l
    refine ⟨ch, r ++ z0 ++ [' ', '0'], ?_, hch⟩
    simp only [Clause.to_str, List.map_cons]
    rw [hz0, hrep]
    simp

theorem scanLines_comment_step {line : Str} (h : startswith (chars "c") line = true)
    (rest : List Str) (nv nc : Int) (cs : List (List Int)) (cos : List Str) :
    scanLines (line :: rest) nv nc cs cos
      = scanLines rest nv nc cs (cos ++ [line.drop 2]) := by
  simp [scanLines, h]

theorem scanLines_comments (comments : List Str) :
    ∀ (rest : List Str) (nv nc : Int) (cs : List (List Int)) (cos : List Str),
      scanLines (comments.map (fun co => 'c' :: ' ' :: co) ++ rest) nv nc cs cos
        = scanLines rest nv nc cs (cos ++ comments) := by
  induction comments with
  | nil => intro rest nv nc cs cos; simp
  | cons co comments' ih =>
    intro rest nv nc cs cos
    rw [List.map_cons, List.cons_append,
      scanLines_comment_step (startswith_cons_self 'c' _) _ _ _ _ _, ih]
    simp

theorem clause_line_not_c {cl : List Int} (hne : cl ≠ []) :
    startswith (chars "c") (Clause.to_str cl) = false := by
  obtain ⟨ch, z, hrep, hch⟩ := clause_to_str_head cl hne
  rw [hrep]
  refine startswith_cons_ne ?_ z
  rcases hch with h | h
  · rw [h]; decide
  · exact fun he => isDigitB_ne h (by decide) he.symm

theorem clause_line_not_p {cl : List Int} (hne : cl ≠ []) :
    startswith (chars "p") (Clause.to_str cl) = false := by
  obtain ⟨ch, z, hrep, hch⟩ := clause_to_str_head cl hne
  rw [hrep]
  refine startswith_cons_ne ?_ z
  rcases hch with h | h
  · rw [h]; decide
  · exact fun he => isDigitB_ne h (by decide) he.symm

theorem scanLines_clause_step {cl : List Int} (hv : Literals.init cl = .ok cl)
    (hne : cl ≠ []) (rest : List Str) (nv nc : Int) (cs : List (List Int))
    (cos : List Str) :
    scanLines (Clause.to_str cl :: rest) nv nc cs cos
      = scanLines rest nv nc (cs ++ [cl]) cos := by
  simp [scanLines, clause_line_not_c hne, clause_line_not_p hne,
    clause_to_from cl hv hne]

theorem scanLines_clauses (cls : List (List Int))
    (hv : ∀ c ∈ cls, Literals.init c = .ok c ∧ c ≠ []) :
    ∀ (rest : List Str) (nv nc : Int) (cs : List (List Int)) (cos : List Str),
      scanLines (cls.map Clause.to_str ++ rest) nv nc cs cos
        = scanLines rest nv nc (cs ++ cls) cos := by
  induction cls with
  | nil => intro rest nv nc cs cos; simp
  | cons cl cls' ih =>
    intro rest nv nc cs cos
    obtain ⟨hvc, hnec⟩ := hv cl (List.mem_cons_self cl cls')
    rw [List.map_cons, List.cons_append, scanLines_clause_step hvc hnec,
      ih (fun c hc => hv c (List.mem_cons_of_mem cl hc))]
    simp

theorem natToStr_not_space {c : Char} {n : Nat} (h : c ∈ natToStr n) : c ≠ ' ' :=
  isDigitB_ne (natToStr_all_digit n c h) (by decide)

theorem natToStr_not_newline {c : Char} {n : Nat} (h : c ∈ natToStr n) : c ≠ '\n' :=
  isDigitB_ne (natToStr_all_digit n c h) (by decide)

/-- The header line emitted by `to_str`, as produced by the f-string. -/
def headerLine (v : Int) (n : Nat) : Str :=
  chars "p cnf " ++ intToStr v ++ [' '] ++ natToStr n

theorem headerLine_eq_joinC (v : Int) (n : Nat) :
    headerLine v n = joinC ' ' [chars "p", chars "cnf", intToStr v, natToStr n] := by
  have h1 : chars "p cnf " = ['p', ' ', 'c', 'n', 'f', ' '] := rfl
  have h2 : chars "p" = ['p'] := rfl
  have h3 : chars "cnf" = ['c', 'n', 'f'] := rfl
  rw [headerLine, joinC_cons₂, joinC_cons₂, h1, h2, h3]
  simp [joinC]

theorem pySplit_headerLine (v : Int) (n : Nat) :
    pySplit ' ' (headerLine v n) = [chars "p", chars "cnf", intToStr v, natToStr n] := by
  rw [headerLine_eq_joinC]
  refine pySplit_joinC (by simp) ?_
  intro t ht hmem
  simp only [List.mem_cons, List.not_mem_nil, or_false] at ht
  rcases ht with rfl | rfl | rfl | rfl
  · exact absurd hmem (by decide)
  · exact absurd hmem (by decide)
  · exact intToStr_not_space hmem rfl
  · exact natToStr_not_space hmem rfl

theorem scanLines_header_step (v : Int) (n : Nat) (rest : List Str)
    (cs : List (List Int)) (cos : List Str) :
    scanLines (headerLine v n :: rest) (-1) (-1) cs cos
      = scanLines rest v (n : Int) cs cos := by
  have hnotc : startswith (chars "c") (headerLine v n) = false := by
    have : headerLine v n = 'p' :: (chars " cnf " ++ intToStr v ++ [' '] ++ natToStr n) := by
      simp [headerLine, chars]
    rw [this]
    exact startswith_cons_ne (by decide) _
  have hisp : startswith (chars "p") (headerLine v n) = true := by
    have : headerLine v n = 'p' :: (chars " cnf " ++ intToStr v ++ [' '] ++ natToStr n) := by
      simp [headerLine, chars]
    rw [this]
    exact startswith_cons_self 'p' _
  simp only [scanLines, hnotc, hisp, pySplit_headerLine, Bool.false_eq_true, if_false,
    if_true]
  rw [if_neg (by simp)]
  simp only [List.getElem?_cons_zero, List.getElem?_cons_succ]
  rw [if_neg (by simp), pyInt_intToStr, pyInt_natToStr]

/-! ### The serialized formula text as a list of lines -/

theorem foldr_append_init (as : List Str) (x : Str) :
    as.foldr (· ++ ·) x = as.foldr (· ++ ·) [] ++ x := by
  induction as with
  | nil => simp
  | cons a as' ih => simp [ih]

theorem linesConcat_eq_join (ls : List Str) (hne : ls ≠ []) :
    (ls.map (· ++ ['\n'])).foldr (· ++ ·) [] = joinC '\n' ls ++ ['\n'] := by
  induction ls with
  | nil => exact absurd rfl hne
  | cons l ls' ih =>
    cases ls' with
    | nil => simp [joinC]
    | cons u rs =>
      rw [List.map_cons, List.foldr_cons, ih (by simp), joinC_cons₂]
      simp

/-! ### Existence and nonnegativity of the derived variable count -/

theorem foldl_max_le (l : List Int) : ∀ a : Int, a ≤ l.foldl max a := by
  induction l with
  | nil => intro a; simp
  | cons x xs ih =>
    intro a
    rw [List.foldl_cons]
    exact le_trans (le_max_left a x) (ih _)

theorem foldl_max_abs_le (l : List Int) :
    ∀ a : Int, a ≤ l.foldl (fun x b => max x (b.natAbs : Int)) a := by
  induction l with
  | nil => intro a; simp
  | cons x xs ih =>
    intro a
    rw [List.foldl_cons]
    exact le_trans (le_max_left a (x.natAbs : Int)) (ih _)

theorem max_varE_ok {c : List Int} (hne : c ≠ []) :
    ∃ v, Literals.max_varE c = .ok v ∧ 0 ≤ v := by
  cases c with
  | nil => exact absurd rfl hne
  | cons l ls =>
    refine ⟨_, rfl, ?_⟩
    exact le_trans (by positivity) (foldl_max_abs_le ls (l.natAbs : Int))

theorem maxVarList_ok {cs : List (List Int)} (h : ∀ c ∈ cs, c ≠ []) :
    ∃ vs, maxVarList cs = .ok vs := by
  induction cs with
  | nil => exact ⟨[], rfl⟩
  | cons c cs' ih =>
    obtain ⟨v, hv, _⟩ := max_varE_ok (h c (List.mem_cons_self c cs'))
    obtain ⟨vs, hvs⟩ := ih (fun x hx => h x (List.mem_cons_of_mem c hx))
    exact ⟨v :: vs, by simp [maxVarList, hv, hvs]⟩

theorem derivedVars_ok {cs : List (List Int)} (hne : cs ≠ [])
    (h : ∀ c ∈ cs, c ≠ []) : ∃ v, CNFFormula.derivedVars cs = .ok v ∧ 0 ≤ v := by
  cases cs with
  | nil => exact absurd rfl hne
  | cons c rest =>
    obtain ⟨v0, hv0, hv0nn⟩ := max_varE_ok (h c (List.mem_cons_self c rest))
    obtain ⟨vs, hvs⟩ := maxVarList_ok (fun x hx => h x (List.mem_cons_of_mem c hx))
    exact ⟨vs.foldl max v0, by simp [CNFFormula.derivedVars, hv0, hvs],
      le_trans hv0nn (foldl_max_le vs v0)⟩

/-! ### Character contents of the serialized lines -/

theorem mem_clause_to_str {c : Char} {cl : List Int} (h : c ∈ Clause.to_str cl) :
    c = ' ' ∨ c = '-' ∨ isDigitB c = true := by
  simp only [Clause.to_str] at h
  rcases List.mem_append.mp h with h | h
  · rcases List.mem_append.mp h with h | h
    · exact joinC_map_intToStr_no_space cl h
    · by_cases hcl : cl = []
      · rw [if_pos hcl] at h; simp at h
      · rw [if_neg hcl] at h
        simp at h
        exact Or.inl h
  · simp at h
    rw [h]
    exact Or.inr (Or.inr (by decide))

theorem clause_to_str_no_newline {c : Char} {cl : List Int}
    (h : c ∈ Clause.to_str cl) : c ≠ '\n' := by
  rcases mem_clause_to_str h with h' | h' | h'
  · rw [h']; decide
  · rw [h']; decide
  · exact isDigitB_ne h' (by decide)

theorem headerLine_no_newline {c : Char} {v : Int} {n : Nat}
    (h : c ∈ headerLine v n) : c ≠ '\n' := by
  simp only [headerLine] at h
  rcases List.mem_append.mp h with h | h
  · rcases List.mem_append.mp h with h | h
    · rcases List.mem_append.mp h with h | h
      · have h' : c ∈ ['p', ' ', 'c', 'n', 'f', ' '] := h
        simp only [List.mem_cons, List.not_mem_nil, or_false] at h'
        rcases h' with rfl | rfl | rfl | rfl | rfl | rfl <;> decide
      · exact intToStr_not_newline h
    · simp at h; rw [h]; decide
  · exact natToStr_not_newline h

/-! ### The formula serialization round trip -/

theorem to_strE_lines (f : CNFFormula) (v : Int)
    (hv : CNFFormula.nbvarsE f = .ok v) :
    CNFFormula.to_strE f = .ok
      (((f.comments.map (fun co => 'c' :: ' ' :: co)
          ++ headerLine v f.nbclauses :: f.clauses.map Clause.to_str).map
            (· ++ ['\n'])).foldr (· ++ ·) []) := by
  simp only [CNFFormula.to_strE, hv]
  congr 1
  have hC : f.comments.map (fun co => 'c' :: ' ' :: co ++ ['\n'])
      = (f.comments.map (fun co => 'c' :: ' ' :: co)).map (· ++ ['\n']) := by
    rw [List.map_map]
    rfl
  have hL : f.clauses.map (fun cl => Clause.to_str cl ++ ['\n'])
      = (f.clauses.map Clause.to_str).map (· ++ ['\n']) := by
    rw [List.map_map]
    rfl
  conv_rhs => rw [List.map_append, List.map_cons, List.foldr_append, List.foldr_cons,
    foldr_append_init]
  rw [hC, hL]
  simp [List.map_map, headerLine, List.append_assoc]

theorem formula_roundtrip_core (f : CNFFormula) (h0 : f.num_vars = none)
    (h1 : f.clauses ≠ []) (h2 : ∀ c ∈ f.clauses, Literals.init c = .ok c ∧ c ≠ [])
    (h3 : ∀ co ∈ f.comments, '\n' ∉ co) :
    ∃ s v, CNFFormula.to_strE f = .ok s ∧ CNFFormula.derivedVars f.clauses = .ok v ∧
      CNFFormula.from_str s = .ok ⟨f.clauses, [], none⟩ := by
  obtain ⟨v, hdv, hvnn⟩ := derivedVars_ok h1 (fun c hc => (h2 c hc).2)
  have hnb : CNFFormula.nbvarsE f = .ok v := by
    simp [CNFFormula.nbvarsE, h0, hdv]
  have hto := to_strE_lines f v hnb
  refine ⟨_, v, hto, hdv, ?_⟩
  set lines := f.comments.map (fun co => 'c' :: ' ' :: co)
      ++ headerLine v f.nbclauses :: f.clauses.map Clause.to_str with hlines
  have hlne : lines ≠ [] := by simp [hlines]
  have hjoin : (lines.map (· ++ ['\n'])).foldr (· ++ ·) []
      = joinC '\n' lines ++ ['\n'] := linesConcat_eq_join lines hlne
  -- the last line is a clause line, which ends with the character 0
  have hstripped : rstrip (fun c => c = '\n' || c = ' ') (joinC '\n' lines)
      = joinC '\n' lines := by
    obtain ⟨clast, cinit, hcl⟩ : ∃ clast cinit, f.clauses = cinit ++ [clast] :=
      ⟨f.clauses.getLast h1, f.clauses.dropLast, (List.dropLast_append_getLast h1).symm⟩
    have hlines2 : lines = (f.comments.map (fun co => 'c' :: ' ' :: co)
        ++ headerLine v f.nbclauses :: cinit.map Clause.to_str)
          ++ [Clause.to_str clast] := by
      rw [hlines, hcl]
      simp
    obtain ⟨pre, hpre⟩ := joinC_eq_append_last '\n' (Clause.to_str clast)
      (f.comments.map (fun co => 'c' :: ' ' :: co)
        ++ headerLine v f.nbclauses :: cinit.map Clause.to_str)
    rw [hlines2, hpre]
    have hsnoc : pre ++ Clause.to_str clast
        = (pre ++ (joinC ' ' (clast.map intToStr)
            ++ (if clast = [] then [] else [' ']))) ++ ['0'] := by
      simp [Clause.to_str, List.append_assoc]
    rw [hsnoc, rstrip_snoc_neg _ (by decide)]
  have hsplit : pySplit '\n' (joinC '\n' lines) = lines := by
    refine pySplit_joinC hlne ?_
    intro t ht hmem
    rw [hlines] at ht
    rcases List.mem_append.mp ht with ht | ht
    · obtain ⟨co, hco, rfl⟩ := List.mem_map.mp ht
      rcases List.mem_cons.mp hmem with h | h
      · exact absurd h (by decide)
      · rcases List.mem_cons.mp h with h | h
        · exact absurd h (by decide)
        · exact h3 co hco h
    · rcases List.mem_cons.mp ht with rfl | ht
      · exact headerLine_no_newline hmem rfl
      · obtain ⟨cl, _, rfl⟩ := List.mem_map.mp ht
        exact clause_to_str_no_newline hmem rfl
  have hscan : scanLines lines (-1) (-1) [] [] = .ok (v, (f.nbclauses : Int),
      f.clauses, f.comments) := by
    rw [hlines, scanLines_comments, scanLines_header_step]
    have hcl := scanLines_clauses f.clauses h2 [] v (f.nbclauses : Int) []
      ([] ++ f.comments)
    rw [List.append_nil] at hcl
    rw [hcl]
    simp [scanLines]
  rw [CNFFormula.from_str, hjoin, rstrip_snoc_pos _ (by decide), hstripped,
    hsplit, hscan]
  have hnb2 : CNFFormula.nbvarsE ⟨f.clauses, [], none⟩ = .ok v := by
    simp [CNFFormula.nbvarsE, hdv]
  have hn1 : ¬((f.nbclauses : Int) = -1) := by omega
  have hv1 : ¬(v = -1) := by omega
  simp [CNFFormula.nbclauses, hnb2, hn1, hv1]

/-! ### Shape of a successful formula parse -/

/-- On a successful parse, the result is the scanned clauses with no
comments and no stored count, the declared clause count matches, and the
declared variable count is exactly the derived maximum atom. -/
theorem from_str_ok_shape (s : Str) (nv nc : Int) (cs : List (List Int))
    (cos : List Str) (f : CNFFormula)
    (hscan : scanLines (pySplit '\n' (rstrip (fun c => c = '\n' || c = ' ') s))
      (-1) (-1) [] [] = .ok (nv, nc, cs, cos))
    (hok : CNFFormula.from_str s = .ok f) :
    f = ⟨cs, [], none⟩ ∧ nc = (cs.length : Int) ∧
      CNFFormula.derivedVars cs = .ok nv := by
  rw [CNFFormula.from_str, hscan] at hok
  simp only [] at hok
  by_cases h1 : nc = -1 ∨ nv = -1
  · rw [if_pos h1] at hok; exact absurd hok (by simp)
  · rw [if_neg h1] at hok
    by_cases h2 : nc ≠ (CNFFormula.nbclauses ⟨cs, [], none⟩ : Int)
    · rw [if_pos h2] at hok; exact absurd hok (by simp)
    · rw [if_neg h2] at hok
      push_neg at h2
      cases hd : CNFFormula.nbvarsE ⟨cs, [], none⟩ with
      | error e => rw [hd] at hok; exact absurd hok (by simp)
      | ok v =>
        rw [hd] at hok
        simp only [] at hok
        by_cases h3 : nv ≠ v
        · rw [if_pos h3] at hok; exact absurd hok (by simp)
        · rw [if_neg h3] at hok
          push_neg at h3
          have hdv : CNFFormula.derivedVars cs = .ok v := by
            simpa [CNFFormula.nbvarsE] using hd
          exact ⟨(Except.ok.injEq _ _ ▸ hok).symm ▸ rfl,
            by simpa [CNFFormula.nbclauses] using h2, h3 ▸ hdv⟩

/-- When the scan succeeded with a real header and matching clause count,
the parse fails with the variable-count message exactly when the declared
count differs from the derived maximum. -/
theorem from_str_varmismatch_iff (s : Str) (nv nc : Int) (cs : List (List Int))
    (cos : List Str) (v : Int)
    (hscan : scanLines (pySplit '\n' (rstrip (fun c => c = '\n' || c = ' ') s))
      (-1) (-1) [] [] = .ok (nv, nc, cs, cos))
    (hnv : nv ≠ -1) (hnc : nc = (cs.length : Int))
    (hdv : CNFFormula.derivedVars cs = .ok v) :
    (CNFFormula.from_str s = .error (.parsingException
      (chars "Specified number of variables does not match parsed number of variables"))
      ↔ nv ≠ v) := by
  have hnb : CNFFormula.nbvarsE ⟨cs, [], none⟩ = .ok v := by
    simpa [CNFFormula.nbvarsE] using hdv
  have hnc1 : ¬(nc = -1 ∨ nv = -1) := by
    push_neg
    exact ⟨by omega, hnv⟩
  have hnc2 : ¬(nc ≠ (CNFFormula.nbclauses ⟨cs, [], none⟩ : Int)) := by
    simp [CNFFormula.nbclauses, hnc]
  rw [CNFFormula.from_str, hscan]
  simp only []
  rw [if_neg hnc1, if_neg hnc2, hnb]
  simp only []
  by_cases h3 : nv ≠ v
  · rw [if_pos h3]
    simp [h3]
  · rw [if_neg h3]
    simp [h3]

/-! ### Formula set-equality -/

theorem litsSetEqb_refl (a : List Int) : litsSetEqb a a = true := by
  simp only [litsSetEqb, Bool.and_eq_true, List.all_eq_true]
  exact ⟨fun x hx => decide_eq_true hx, fun x hx => decide_eq_true hx⟩

theorem formulaEqb_same_clauses (cs : List (List Int)) (a b : List Str)
    (x y : Option Int) : formulaEqb ⟨cs, a, x⟩ ⟨cs, b, y⟩ = true := by
  simp only [formulaEqb, Bool.and_eq_true, List.all_eq_true]
  constructor
  · intro c hc
    exact List.any_eq_true.mpr ⟨c, hc, litsSetEqb_refl c⟩
  · intro c hc
    exact List.any_eq_true.mpr ⟨c, hc, litsSetEqb_refl c⟩

/-! ### Assignment parsing lemmas -/

theorem scanTokens_no_zero : ∀ (ts : List Str) (acc : List Str),
    chars "0" ∉ ts → scanTokens ts acc = (acc ++ ts, false) := by
  intro ts
  induction ts with
  | nil => intro acc _; simp [scanTokens]
  | cons v rest ih =>
    intro acc h
    have hv : ¬ v = chars "0" := fun he => h (he ▸ List.mem_cons_self v rest)
    rw [scanTokens, if_neg hv, ih _ (fun hm => h (List.mem_cons_of_mem v hm))]
    simp

theorem fromLines_not_v {l : Str} (h : startswith (chars "v") l = false)
    (rest : List Str) (acc : List Str) :
    SATAssignment.fromLines (l :: rest) acc
      = .error (.parsingException (chars "New line does not start with v")) := by
  simp [SATAssignment.fromLines, h]

theorem fromLines_missing_zero :
    ∀ (ls : List Str) (acc : List Str),
      (∀ l ∈ ls, startswith (chars "v") l = true ∧ chars "0" ∉ (pySplit ' ' l).tail) →
      SATAssignment.fromLines ls acc
        = .error (.parsingException (chars "Assignment string does not end with zero")) := by
  intro ls
  induction ls with
  | nil => intro acc _; rfl
  | cons l rest ih =>
    intro acc h
    obtain ⟨hv, hz⟩ := h l (List.mem_cons_self l rest)
    rw [SATAssignment.fromLines, if_neg (by simp [hv]), scanTokens_no_zero _ _ hz]
    exact ih _ (fun x hx => h x (List.mem_cons_of_mem l hx))

theorem fromLines_ignores_rest (rest : List Str) :
    SATAssignment.fromLines (chars "v 1 -2 3 0" :: rest) [] = .ok [1, -2, 3] := by
  have h1 : startswith (chars "v") (chars "v 1 -2 3 0") = true := by decide
  have h2 : scanTokens (pySplit ' ' (chars "v 1 -2 3 0")).tail []
      = ([chars "1", chars "-2", chars "3"], true) := by decide
  rw [SATAssignment.fromLines, if_neg (by simp [h1]), h2, if_pos rfl]
  decide

/-! ### Duplicate detection via `dedup` length -/

theorem dedup_length_iff {l : List Nat} : l.dedup.length = l.length ↔ l.Nodup := by
  constructor
  · intro h
    have hsub := List.dedup_sublist l
    have heq := hsub.eq_of_length h
    rw [← heq]
    exact List.nodup_dedup l
  · intro h
    rw [List.dedup_eq_self.mpr h]

theorem init_dup_iff (lits : List Int) :
    (lits.map Int.natAbs).dedup.length = lits.length ↔ (lits.map Int.natAbs).Nodup := by
  rw [show lits.length = (lits.map Int.natAbs).length from (List.length_map _ _).symm]
  exact dedup_length_iff

/-! ### Vocabulary lookup lemmas -/

theorem find_by_key {m : List (Str × Int)} {t : Str} {i : Int}
    (hkeys : (m.map Prod.fst).Nodup) (hm : (t, i) ∈ m) :
    m.find? (fun p => p.1 = t) = some (t, i) := by
  induction m with
  | nil => simp at hm
  | cons q rest ih =>
    rw [List.map_cons, List.nodup_cons] at hkeys
    rcases List.mem_cons.mp hm with h | h
    · rw [← h]
      exact List.find?_cons_of_pos _ (by simp)
    · have hq : ¬ (q.1 = t) := by
        intro he
        exact hkeys.1 (he ▸ (List.mem_map_of_mem Prod.fst h : (t, i).1 ∈ _))
      rw [List.find?_cons_of_neg _ (by simpa using hq)]
      exact ih hkeys.2 h

theorem find_by_val {m : List (Str × Int)} {t : Str} {i : Int}
    (hvals : (m.map Prod.snd).Nodup) (hm : (t, i) ∈ m) :
    m.find? (fun p => p.2 = i) = some (t, i) := by
  induction m with
  | nil => simp at hm
  | cons q rest ih =>
    rw [List.map_cons, List.nodup_cons] at hvals
    rcases List.mem_cons.mp hm with h | h
    · rw [← h]
      exact List.find?_cons_of_pos _ (by simp)
    · have hq : ¬ (q.2 = i) := by
        intro he
        exact hvals.1 (he ▸ (List.mem_map_of_mem Prod.snd h : (t, i).2 ∈ _))
      rw [List.find?_cons_of_neg _ (by simpa using hq)]
      exact ih hvals.2 h

theorem dictLookup_of_mem {m : List (Str × Int)} {t : Str} {i : Int}
    (hkeys : (m.map Prod.fst).Nodup) (hm : (t, i) ∈ m) :
    dictLookup m t = some i := by
  rw [dictLookup, find_by_key hkeys hm]
  rfl

theorem revLookup_of_mem {m : List (Str × Int)} {t : Str} {i : Int}
    (hvals : (m.map Prod.snd).Nodup) (hm : (t, i) ∈ m) :
    revLookup m i = some t := by
  have hrev : ((m.reverse).map Prod.snd).Nodup := by
    rw [List.map_reverse]
    exact List.nodup_reverse.mpr hvals
  rw [revLookup, find_by_val hrev (List.mem_reverse.mpr hm)]
  rfl

theorem dictLookup_eq_none {m : List (Str × Int)} {t : Str}
    (h : t ∉ m.map Prod.fst) : dictLookup m t = none := by
  rw [dictLookup, List.find?_eq_none.mpr]
  · rfl
  · intro p hp
    simp only [decide_eq_true_eq]
    intro he
    exact h (he ▸ List.mem_map_of_mem Prod.fst hp)

theorem revLookup_eq_none {m : List (Str × Int)} {i : Int}
    (h : i ∉ m.map Prod.snd) : revLookup m i = none := by
  rw [revLookup, List.find?_eq_none.mpr]
  · rfl
  · intro p hp
    simp only [decide_eq_true_eq]
    intro he
    exact h (he ▸ List.mem_map_of_mem Prod.snd (List.mem_reverse.mp hp))

/-! ### Insertion sort permutes its input -/

theorem insOrd_perm (le : α → α → Bool) (x : α) (l : List α) :
    (insOrd le x l).Perm (x :: l) := by
  induction l with
  | nil => exact List.Perm.refl _
  | cons y ys ih =>
    rw [insOrd]
    by_cases h : le x y
    · rw [if_pos h]
    · rw [if_neg h]
      exact List.Perm.trans (List.Perm.cons y ih) (List.Perm.swap x y ys)

theorem insSort_perm (le : α → α → Bool) (l : List α) :
    (insSort le l).Perm l := by
  induction l with
  | nil => exact List.Perm.refl _
  | cons x xs ih =>
    exact List.Perm.trans (insOrd_perm le x (insSort le xs)) (List.Perm.cons x ih)

/-! ### Python dict construction is the identity on distinct keys -/

theorem dictOf_foldl_nodup :
    ∀ (ps acc : List (Str × Int)), (((acc ++ ps).map Prod.fst).Nodup) →
      ps.foldl (fun m p => dictInsert m p.1 p.2) acc = acc ++ ps := by
  intro ps
  induction ps with
  | nil => intro acc _; simp
  | cons p ps' ih =>
    intro acc h
    rw [List.foldl_cons]
    have hp1 : p.1 ∉ acc.map Prod.fst := by
      rw [List.map_append, List.map_cons] at h
      have hd := List.disjoint_of_nodup_append h
      intro hmem
      exact hd hmem (List.mem_cons_self _ _)
    have hnoany : ¬ (acc.any (fun q => q.1 = p.1) = true) := by
      intro hany
      rw [List.any_eq_true] at hany
      obtain ⟨q, hq, hqe⟩ := hany
      rw [decide_eq_true_eq] at hqe
      exact hp1 (hqe ▸ List.mem_map_of_mem Prod.fst hq)
    have hins : dictInsert acc p.1 p.2 = acc ++ [p] := by
      rw [dictInsert, if_neg hnoany]
    rw [hins, ih (acc ++ [p]) (by simpa using h)]
    simp

theorem dictOf_nodup {ps : List (Str × Int)} (h : (ps.map Prod.fst).Nodup) :
    dictOf ps = ps := by
  have := dictOf_foldl_nodup ps [] (by simpa using h)
  simpa [dictOf] using this

/-! ### The collected vocabulary mapping -/

theorem isdigitStr_natToStr (n : Nat) : isdigitStr (natToStr n) = true := by
  cases hs : natToStr n with
  | nil => exact absurd hs (natToStr_ne_nil n)
  | cons c rest =>
    simp only [isdigitStr, List.isEmpty_cons, Bool.not_false, Bool.true_and]
    exact List.all_eq_true.mpr (fun x hx => natToStr_all_digit n x (hs ▸ hx))

theorem sortedTokens_perm (tokens : List Str)
    (hcanon : ∀ t ∈ tokens, isdigitStr t = true → natToStr (digitsVal t) = t) :
    (sortedTokens tokens).Perm tokens := by
  unfold sortedTokens
  have hA := insSort_perm (fun a b => strLtb b a || decide (a = b))
    (tokens.filter (fun t => !isdigitStr t))
  have hB1 := insSort_perm (fun a b : Nat => a ≤ b)
    ((tokens.filter isdigitStr).map digitsVal)
  have hB : ((insSort (fun a b : Nat => a ≤ b)
      ((tokens.filter isdigitStr).map digitsVal)).map natToStr).Perm
        (tokens.filter isdigitStr) := by
    refine List.Perm.trans (hB1.map natToStr) ?_
    rw [List.map_map]
    have heq : (tokens.filter isdigitStr).map (natToStr ∘ digitsVal)
        = tokens.filter isdigitStr := by
      have h1 : (tokens.filter isdigitStr).map (natToStr ∘ digitsVal)
          = (tokens.filter isdigitStr).map id :=
        List.map_congr_left
          (fun a ha => hcanon a (List.mem_of_mem_filter ha) (List.of_mem_filter ha))
      rw [h1, List.map_id]
    rw [heq]
  refine List.Perm.trans (hA.append hB) ?_
  refine List.Perm.trans List.perm_append_comm ?_
  exact List.filter_append_perm isdigitStr tokens

theorem sortedTokens_nodup (tokens : List Str) (htok : tokens.Nodup)
    (hcanon : ∀ t ∈ tokens, isdigitStr t = true → natToStr (digitsVal t) = t) :
    (sortedTokens tokens).Nodup := by
  unfold sortedTokens
  have hAf : (tokens.filter (fun t => !isdigitStr t)).Nodup := htok.filter _
  have hA : (insSort (fun a b => strLtb b a || decide (a = b))
      (tokens.filter (fun t => !isdigitStr t))).Nodup :=
    (insSort_perm _ _).symm.nodup hAf
  have hD : (tokens.filter isdigitStr).Nodup := htok.filter _
  have hDv : ((tokens.filter isdigitStr).map digitsVal).Nodup := by
    refine List.Nodup.map_on ?_ hD
    intro x hx y hy hxy
    have hcx := hcanon x (List.mem_of_mem_filter hx) (List.of_mem_filter hx)
    have hcy := hcanon y (List.mem_of_mem_filter hy) (List.of_mem_filter hy)
    rw [← hcx, ← hcy, hxy]
  have hB : ((insSort (fun a b : Nat => a ≤ b)
      ((tokens.filter isdigitStr).map digitsVal)).map natToStr).Nodup :=
    ((insSort_perm _ _).symm.nodup hDv).map natToStr_injective
  refine hA.append hB ?_
  intro a haA haB
  have haf : a ∈ tokens.filter (fun t => !isdigitStr t) :=
    (insSort_perm _ _).mem_iff.mp haA
  have hand : isdigitStr a = false := by
    have := List.of_mem_filter haf
    simpa using this
  obtain ⟨v, _, rfl⟩ := List.mem_map.mp haB
  rw [isdigitStr_natToStr] at hand
  exact absurd hand (by decide)

theorem collect_mapping_eq (tokens : List Str) (htok : tokens.Nodup)
    (hcanon : ∀ t ∈ tokens, isdigitStr t = true → natToStr (digitsVal t) = t) :
    collect_mapping tokens
      = (sortedTokens tokens).enum.map (fun p => (p.2, (p.1 : Int) + 1)) := by
  rw [collect_mapping]
  apply dictOf_nodup
  rw [List.map_map]
  have hcomp : (Prod.fst ∘ fun p : Nat × Str => (p.2, (p.1 : Int) + 1))
      = Prod.snd := rfl
  rw [hcomp, List.enum_map_snd]
  exact sortedTokens_nodup tokens htok hcanon

theorem collect_mapping_keys (tokens : List Str) (htok : tokens.Nodup)
    (hcanon : ∀ t ∈ tokens, isdigitStr t = true → natToStr (digitsVal t) = t) :
    vocabKeys (collect_mapping tokens) = sortedTokens tokens := by
  rw [vocabKeys, collect_mapping_eq tokens htok hcanon, List.map_map]
  have hcomp : (Prod.fst ∘ fun p : Nat × Str => (p.2, (p.1 : Int) + 1))
      = Prod.snd := rfl
  rw [hcomp, List.enum_map_snd]

theorem collect_mapping_values (tokens : List Str) (htok : tokens.Nodup)
    (hcanon : ∀ t ∈ tokens, isdigitStr t = true → natToStr (digitsVal t) = t) :
    vocabValues (collect_mapping tokens)
      = (List.range (sortedTokens tokens).length).map
          (fun n : Nat => (n : Int) + 1) := by
  rw [vocabValues, collect_mapping_eq tokens htok hcanon, List.map_map]
  conv_rhs => rw [← List.enum_map_fst (sortedTokens tokens), List.map_map]
  rfl

/-! ### Clause parsing without a terminating zero -/

theorem digitChar_ne_zero {m : Nat} (h1 : m ≠ 0) (h2 : m < 10) :
    digitChar m ≠ '0' := by
  interval_cases m <;> first | exact absurd rfl h1 | decide

theorem intToStr_last_digit (l : Int) (h : l.natAbs ≠ 0) :
    ∃ pre, intToStr l = pre ++ [digitChar (l.natAbs % 10)] := by
  have hn : natToStr l.natAbs
      = natToStrAux (l.natAbs - 1) (l.natAbs / 10) ++ [digitChar (l.natAbs % 10)] := by
    rw [natToStr, if_neg h]
    have hsucc : l.natAbs = (l.natAbs - 1) + 1 := by omega
    conv_lhs => rw [hsucc]
    rw [natToStrAux, if_neg (by omega)]
    rw [← hsucc]
  by_cases hl : l < 0
  · exact ⟨'-' :: natToStrAux (l.natAbs - 1) (l.natAbs / 10), by simp [intToStr, hl, hn]⟩
  · exact ⟨natToStrAux (l.natAbs - 1) (l.natAbs / 10), by simp [intToStr, hl, hn]⟩

theorem init_ok_not_zero {lits lits' : List Int}
    (h : Literals.init lits = .ok lits') : 0 ∉ lits := by
  by_cases h1 : (lits.map Int.natAbs).dedup.length ≠ lits.length
  · rw [Literals.init, if_pos h1] at h
    exact absurd h (by simp)
  · rw [Literals.init, if_neg h1] at h
    by_cases h2 : 0 ∈ lits
    · rw [if_pos h2] at h
      exact absurd h (by simp)
    · exact h2

theorem clause_from_str_no_terminator (lits : List Int) (hne : lits ≠ [])
    (hv : Literals.init lits = .ok lits)
    (hlast : (lits.getLast hne).natAbs % 10 ≠ 0) :
    Clause.from_str (joinC ' ' (lits.map intToStr)) = .ok lits := by
  have h0 : (lits.getLast hne).natAbs ≠ 0 := by
    have hmem := List.getLast_mem hne
    have hnz : lits.getLast hne ≠ 0 := fun he => init_ok_not_zero hv (he ▸ hmem)
    omega
  obtain ⟨pre2, hpre2⟩ := intToStr_last_digit (lits.getLast hne) h0
  obtain ⟨pre1, hpre1⟩ := joinC_eq_append_last ' ' (intToStr (lits.getLast hne))
    (lits.dropLast.map intToStr)
  have hrep : joinC ' ' (lits.map intToStr)
      = (pre1 ++ pre2) ++ [digitChar ((lits.getLast hne).natAbs % 10)] := by
    conv_lhs => rw [← List.dropLast_append_getLast hne]
    rw [List.map_append, List.map_cons, List.map_nil, hpre1, hpre2]
    simp
  have hmod : (lits.getLast hne).natAbs % 10 < 10 := Nat.mod_lt _ (by norm_num)
  have hd : isDigitB (digitChar ((lits.getLast hne).natAbs % 10)) = true :=
    digitChar_isDigitB _ hmod
  have hsplit : pySplit ' ' (joinC ' ' (lits.map intToStr)) = lits.map intToStr :=
    pySplit_joinC (by simpa using hne) (by
      intro t ht hmem
      obtain ⟨l, _, rfl⟩ := List.mem_map.mp ht
      exact intToStr_not_space hmem rfl)
  rw [Clause.from_str, hrep,
    rstrip_snoc_neg _ (decide_eq_false (digitChar_ne_zero hlast hmod)),
    rstrip_snoc_neg _ (decide_eq_false (isDigitB_ne hd (by decide))),
    ← hrep, hsplit]
  simp [Literals.from_strs, pyIntList_map_intToStr, hv]

/-! ### A scan with no clause lines can never produce a formula -/

theorem from_str_no_clauses_fail (s : Str) (nv nc : Int) (cos : List Str)
    (f : CNFFormula)
    (hscan : scanLines (pySplit '\n' (rstrip (fun c => c = '\n' || c = ' ') s))
      (-1) (-1) [] [] = .ok (nv, nc, [], cos)) :
    CNFFormula.from_str s ≠ .ok f := by
  intro hok
  obtain ⟨_, _, hdv⟩ := from_str_ok_shape s nv nc [] cos f hscan hok
  simp [CNFFormula.derivedVars] at hdv

/-! ### Claim theorems -/

/-- Claim C1, counterexample: the empty clause serializes to exactly `0`,
but parsing that serialization fails (the stripped line leaves an empty
token that is not an integer), so the round trip does not hold for the
empty clause. -/
theorem claim_C1_cex :
    Clause.to_str [] = chars "0" ∧
    Clause.from_str (Clause.to_str [])
      = .error (.parsingException (chars "Non-integer in literal list")) := by
  exact ⟨by decide, by decide⟩

/-- Claim C1 (amended): for every nonempty Clause built from a valid list
of literals, parsing the DIMACS serialization succeeds and yields a Clause
set-equal to the original; the empty clause is excluded because its
serialization `0` fails to parse. -/
theorem claim_C1 (lits : List Int) (hv : Literals.init lits = .ok lits)
    (hne : lits ≠ []) :
    ∃ lits', Clause.from_str (Clause.to_str lits) = .ok lits'
      ∧ litsSetEqb lits' lits = true :=
  ⟨lits, clause_to_from lits hv hne, litsSetEqb_refl lits⟩

/-- Claim C1, witness at the clause `[1, -2]`. -/
theorem claim_C1_witness :
    ∃ lits', Clause.from_str (Clause.to_str [1, -2]) = .ok lits'
      ∧ litsSetEqb lits' [1, -2] = true :=
  claim_C1 [1, -2] (by decide) (by decide)

/-- Claim C2, counterexample: a Formula with no clauses (whose clauses are
trivially pairwise distinct) cannot be round-tripped, because serializing
it already raises a `ValueError` when the derived variable count takes the
maximum of an empty sequence. -/
theorem claim_C2_cex :
    CNFFormula.to_strE ⟨[], [], none⟩
      = .error (.valueError (chars "max() arg is an empty sequence")) := by
  decide

/-- Claim C2 (amended): for every Formula with pairwise-distinct valid
nonempty clauses, at least one clause, newline-free comments, and no
stored variable count, parsing the serialization succeeds and yields a
Formula equal to the original under clause-set equality (comments and
counts are not compared). -/
theorem claim_C2 (f : CNFFormula) (hnv : f.num_vars = none)
    (hdistinct : f.clauses.Nodup) (h1 : f.clauses ≠ [])
    (h2 : ∀ c ∈ f.clauses, Literals.init c = .ok c ∧ c ≠ [])
    (h3 : ∀ co ∈ f.comments, '\n' ∉ co) :
    ∃ s f', CNFFormula.to_strE f = .ok s ∧ CNFFormula.from_str s = .ok f'
      ∧ formulaEqb f' f = true := by
  obtain ⟨s, v, hto, _, hfrom⟩ := formula_roundtrip_core f hnv h1 h2 h3
  rcases f with ⟨cs, cos, nv⟩
  exact ⟨s, _, hto, hfrom, formulaEqb_same_clauses cs [] cos none nv⟩

/-- Claim C2, witness at a two-clause formula with a comment. -/
theorem claim_C2_witness :
    ∃ s f', CNFFormula.to_strE ⟨[[1, 2], [-1, 3]], [chars "note"], none⟩ = .ok s
      ∧ CNFFormula.from_str s = .ok f'
      ∧ formulaEqb f' ⟨[[1, 2], [-1, 3]], [chars "note"], none⟩ = true :=
  claim_C2 ⟨[[1, 2], [-1, 3]], [chars "note"], none⟩ rfl (by decide) (by decide)
    (by decide) (by decide)

/-- Claim C3, counterexample: parsing the header `p cnf 0 0` with no
clause lines does not succeed; it raises the `ValueError` from taking the
maximum over an empty clause list, not a `VarCountMismatch`, and not
success as the claim states. -/
theorem claim_C3_cex :
    CNFFormula.from_str (chars "p cnf 0 0\n")
      = .error (.valueError (chars "max() arg is an empty sequence")) := by
  decide

/-- Claim C3 (amended): when the scan of the document produced a header
(declared counts read, declared variable count not `-1`) and at least one
clause with a matching declared clause count, the parse fails with the
variable-count mismatch message exactly when the declared variable count
differs from the maximum atom across the parsed clauses.  When no clause
line was parsed, parsing never succeeds — in particular `p cnf 0 0`
raises the empty-maximum `ValueError` instead of succeeding. -/
theorem claim_C3 :
    (∀ (s : Str) (nv nc : Int) (cs : List (List Int)) (cos : List Str) (v : Int),
      scanLines (pySplit '\n' (rstrip (fun c => c = '\n' || c = ' ') s))
        (-1) (-1) [] [] = .ok (nv, nc, cs, cos) →
      nv ≠ -1 → nc = (cs.length : Int) → CNFFormula.derivedVars cs = .ok v →
      (CNFFormula.from_str s = .error (.parsingException
        (chars "Specified number of variables does not match parsed number of variables"))
        ↔ nv ≠ v))
    ∧ (∀ (s : Str) (nv nc : Int) (cos : List Str) (f : CNFFormula),
      scanLines (pySplit '\n' (rstrip (fun c => c = '\n' || c = ' ') s))
        (-1) (-1) [] [] = .ok (nv, nc, [], cos) →
      CNFFormula.from_str s ≠ .ok f)
    ∧ CNFFormula.from_str (chars "p cnf 0 0\n")
      = .error (.valueError (chars "max() arg is an empty sequence")) := by
  refine ⟨?_, ?_, by decide⟩
  · intro s nv nc cs cos v hscan hnv hnc hdv
    exact from_str_varmismatch_iff s nv nc cs cos v hscan hnv hnc hdv
  · intro s nv nc cos f hscan
    exact from_str_no_clauses_fail s nv nc cos f hscan

/-- Claim C3, witness: the variable-count mismatch criterion applied to
`p cnf 3 1` over the single clause `1 2 0`. -/
theorem claim_C3_witness :
    CNFFormula.from_str (chars "p cnf 3 1\n1 2 0\n")
      = .error (.parsingException
        (chars "Specified number of variables does not match parsed number of variables")) :=
  (claim_C3.1 (chars "p cnf 3 1\n1 2 0\n") 3 1 [[1, 2]] [] 2 (by decide) (by decide)
    (by decide) (by decide)).mpr (by decide)

/-- Claim C4: `p cnf 2 1` over `1 2 0` parses successfully with two
variables and one clause, `p cnf 3 1` over the same clause fails with the
variable-count mismatch, and on every successful parse the declared
clause count equals the number of parsed clauses while the declared
variable count equals the derived maximum atom. -/
theorem claim_C4 :
    CNFFormula.from_str (chars "p cnf 2 1\n1 2 0\n") = .ok ⟨[[1, 2]], [], none⟩
    ∧ CNFFormula.nbvarsE ⟨[[1, 2]], [], none⟩ = .ok 2
    ∧ CNFFormula.nbclauses ⟨[[1, 2]], [], none⟩ = 1
    ∧ CNFFormula.from_str (chars "p cnf 3 1\n1 2 0\n")
      = .error (.parsingException
        (chars "Specified number of variables does not match parsed number of variables"))
    ∧ (∀ (s : Str) (nv nc : Int) (cs : List (List Int)) (cos : List Str)
        (f : CNFFormula),
      scanLines (pySplit '\n' (rstrip (fun c => c = '\n' || c = ' ') s))
        (-1) (-1) [] [] = .ok (nv, nc, cs, cos) →
      CNFFormula.from_str s = .ok f →
      f.clauses = cs ∧ nc = (cs.length : Int)
        ∧ CNFFormula.derivedVars cs = .ok nv) := by
  refine ⟨by decide, by decide, by decide, by decide, ?_⟩
  intro s nv nc cs cos f hscan hok
  obtain ⟨hf, hnc, hdv⟩ := from_str_ok_shape s nv nc cs cos f hscan hok
  exact ⟨by rw [hf], hnc, hdv⟩

/-- Claim C4, witness: the parse invariant instantiated on the successful
parse of `p cnf 2 1` over `1 2 0`. -/
theorem claim_C4_witness :
    (⟨[[1, 2]], [], none⟩ : CNFFormula).clauses = [[1, 2]]
    ∧ (1 : Int) = (([[1, 2]] : List (List Int)).length : Int)
    ∧ CNFFormula.derivedVars [[1, 2]] = .ok 2 :=
  claim_C4.2.2.2.2 (chars "p cnf 2 1\n1 2 0\n") 2 1 [[1, 2]] [] ⟨[[1, 2]], [], none⟩
    (by decide) (by decide)

/-- Claim C5: assignment parsing splits into lines, requires each scanned
line to start with `v`, accumulates tokens after the marker left to right
until the first `0` token (after which remaining lines are ignored and
not validated), fails with the missing-terminator message when no `0`
occurs, and the concrete example `v 1 -2 3 0` parses to `[1, -2, 3]` and
serializes back to the same string. -/
theorem claim_C5 :
    SATAssignment.from_str (chars "v 1 -2 3 0") = .ok [1, -2, 3]
    ∧ SATAssignment.to_str [1, -2, 3] = chars "v 1 -2 3 0"
    ∧ (∀ rest : List Str,
        SATAssignment.fromLines (chars "v 1 -2 3 0" :: rest) [] = .ok [1, -2, 3])
    ∧ (∀ (l : Str) (rest acc : List Str), startswith (chars "v") l = false →
        SATAssignment.fromLines (l :: rest) acc
          = .error (.parsingException (chars "New line does not start with v")))
    ∧ (∀ (ls acc : List Str),
        (∀ l ∈ ls, startswith (chars "v") l = true
          ∧ chars "0" ∉ (pySplit ' ' l).tail) →
        SATAssignment.fromLines ls acc
          = .error (.parsingException
            (chars "Assignment string does not end with zero"))) := by
  refine ⟨by decide, by decide, fromLines_ignores_rest, ?_, fromLines_missing_zero⟩
  intro l rest acc h
  exact fromLines_not_v h rest acc

/-- Claim C5, witness: lines after the terminator are ignored, a line not
starting with `v` is rejected, and a missing `0` is rejected. -/
theorem claim_C5_witness :
    SATAssignment.fromLines [chars "v 1 -2 3 0", chars "garbage"] [] = .ok [1, -2, 3]
    ∧ SATAssignment.fromLines [chars "x 1 0"] []
      = .error (.parsingException (chars "New line does not start with v"))
    ∧ SATAssignment.fromLines [chars "v 1 -2"] []
      = .error (.parsingException (chars "Assignment string does not end with zero")) :=
  ⟨claim_C5.2.2.1 [chars "garbage"],
    claim_C5.2.2.2.1 (chars "x 1 0") [] [] (by decide),
    claim_C5.2.2.2.2 [chars "v 1 -2"] [] (by decide)⟩

/-- Claim C6: building a literal set from integers fails on duplicate
atoms (checked first) and on a zero literal, succeeds otherwise holding
exactly the given literals, and building from token strings fails on a
non-integer token before the integer constructor is applied; in
particular `[1, -1, 2]` hits the duplicate-atom failure and `[0, 1]` the
zero-literal failure. -/
theorem claim_C6 :
    Literals.init [1, -1, 2]
      = .error (.parsingException (chars "Literals not distinct or a tautology"))
    ∧ Literals.init [0, 1]
      = .error (.parsingException (chars "0 cannot be a literal"))
    ∧ (∀ lits : List Int, ¬ (lits.map Int.natAbs).Nodup →
        Literals.init lits
          = .error (.parsingException (chars "Literals not distinct or a tautology")))
    ∧ (∀ lits : List Int, (lits.map Int.natAbs).Nodup → 0 ∈ lits →
        Literals.init lits
          = .error (.parsingException (chars "0 cannot be a literal")))
    ∧ (∀ lits : List Int, (lits.map Int.natAbs).Nodup → 0 ∉ lits →
        Literals.init lits = .ok lits)
    ∧ (∀ strs : List Str, pyIntList strs = none →
        Literals.from_strs strs
          = .error (.parsingException (chars "Non-integer in literal list")))
    ∧ (∀ (strs : List Str) (lits : List Int), pyIntList strs = some lits →
        Literals.from_strs strs = Literals.init lits) := by
  refine ⟨by decide, by decide, ?_, ?_, ?_, ?_, ?_⟩
  · intro lits h
    have hc : (lits.map Int.natAbs).dedup.length ≠ lits.length := by
      intro hlen
      exact h ((init_dup_iff lits).mp hlen)
    rw [Literals.init, if_pos hc]
  · intro lits h h0
    have hc : ¬ ((lits.map Int.natAbs).dedup.length ≠ lits.length) := by
      rw [not_not]
      exact (init_dup_iff lits).mpr h
    rw [Literals.init, if_neg hc, if_pos h0]
  · intro lits h h0
    have hc : ¬ ((lits.map Int.natAbs).dedup.length ≠ lits.length) := by
      rw [not_not]
      exact (init_dup_iff lits).mpr h
    rw [Literals.init, if_neg hc, if_neg h0]
  · intro strs h
    rw [Literals.from_strs, h]
  · intro strs lits h
    rw [Literals.from_strs, h]

/-- Claim C6, witness: a valid construction holding exactly its literals,
and a token list with a non-integer token failing. -/
theorem claim_C6_witness :
    Literals.init [3, -5] = .ok [3, -5]
    ∧ Literals.from_strs [chars "3", chars "x"]
      = .error (.parsingException (chars "Non-integer in literal list")) :=
  ⟨claim_C6.2.2.2.2.1 [3, -5] (by decide) (by decide),
    claim_C6.2.2.2.2.2.1 [chars "3", chars "x"] (by decide)⟩

/-- Claim C7, counterexample: a Vocabulary whose mapping carries the same
id for two tokens (which the loading path accepts without validation)
breaks the round trip: encoding `a` gives id `1`, but decoding `1` gives
`b`, because the reverse dict keeps the last writer of each id. -/
theorem claim_C7_cex :
    Vocabulary.to_vocab ⟨[(chars "a", 1), (chars "b", 1)]⟩ [chars "a"] = .ok [1]
    ∧ Vocabulary.from_vocab ⟨[(chars "a", 1), (chars "b", 1)]⟩ [1] = .ok [chars "b"]
    ∧ chars "b" ≠ chars "a" := by
  exact ⟨by decide, by decide, by decide⟩

/-- Claim C7 (amended): for every Vocabulary whose mapping has distinct
keys and distinct ids, with id 0 never a value — as holds for every
mapping produced by sequential assignment — encoding then decoding a
present token returns that token, encoding an absent token fails naming
it, and decoding id 0 or any id outside the mapping fails naming the id. -/
theorem claim_C7 (vo : Vocabulary) (hkeys : (vocabKeys vo.mapping).Nodup)
    (hvals : (vocabValues vo.mapping).Nodup)
    (h0 : (0 : Int) ∉ vocabValues vo.mapping) :
    (∀ (t : Str) (i : Int), (t, i) ∈ vo.mapping →
      vo.to_vocab [t] = .ok [i] ∧ vo.from_vocab [i] = .ok [t])
    ∧ (∀ t : Str, t ∉ vocabKeys vo.mapping →
      vo.to_vocab [t] = .error (.valueError (chars "Unable to read " ++ t)))
    ∧ vo.from_vocab [0] = .error (.valueError (chars "Unable to read " ++ intToStr 0))
    ∧ (∀ i : Int, i ∉ vocabValues vo.mapping →
      vo.from_vocab [i] = .error (.valueError (chars "Unable to read " ++ intToStr i))) := by
  have habsent : ∀ i : Int, i ∉ vocabValues vo.mapping →
      vo.from_vocab [i] = .error (.valueError (chars "Unable to read " ++ intToStr i)) := by
    intro i hi
    rw [Vocabulary.from_vocab, revLookup_eq_none hi]
  refine ⟨?_, ?_, habsent 0 h0, habsent⟩
  · intro t i hm
    constructor
    · rw [Vocabulary.to_vocab, dictLookup_of_mem hkeys hm]
      rfl
    · rw [Vocabulary.from_vocab, revLookup_of_mem hvals hm]
      rfl
  · intro t ht
    rw [Vocabulary.to_vocab, dictLookup_eq_none ht]

/-- Claim C7, witness on the two-token vocabulary `a ↦ 1, b ↦ 2`. -/
theorem claim_C7_witness :
    (Vocabulary.to_vocab ⟨[(chars "a", 1), (chars "b", 2)]⟩ [chars "a"] = .ok [1]
      ∧ Vocabulary.from_vocab ⟨[(chars "a", 1), (chars "b", 2)]⟩ [1] = .ok [chars "a"])
    ∧ Vocabulary.to_vocab ⟨[(chars "a", 1), (chars "b", 2)]⟩ [chars "z"]
      = .error (.valueError (chars "Unable to read " ++ chars "z"))
    ∧ Vocabulary.from_vocab ⟨[(chars "a", 1), (chars "b", 2)]⟩ [0]
      = .error (.valueError (chars "Unable to read " ++ intToStr 0)) := by
  have h := claim_C7 ⟨[(chars "a", 1), (chars "b", 2)]⟩ (by decide) (by decide)
    (by decide)
  exact ⟨h.1 (chars "a") 1 (by decide), h.2.1 (chars "z") (by decide), h.2.2.1⟩

/-- Claim C8, counterexample: the collected token `07` is numeric, is
canonicalized by `str(int(t))` to `7`, and therefore never appears in the
mapping's domain, so ids are not assigned over the distinct collected
tokens as the claim states. -/
theorem claim_C8_cex :
    collect_mapping [chars "07"] = [(chars "7", 1)]
    ∧ chars "07" ∉ vocabKeys (collect_mapping [chars "07"]) := by
  exact ⟨by decide, by decide⟩

/-- Claim C8 (amended): for distinct collected tokens whose all-digit
tokens are in canonical form (`t` equals `str(int(t))`), the mapping
assigns ids sequentially starting at 1 over the sorted order — non-digit
tokens in descending lexicographic order, then digit tokens in ascending
numeric order — its domain is exactly the collected tokens, and the
assignment is injective and never uses the reserved padding id 0. -/
theorem claim_C8 (tokens : List Str) (htok : tokens.Nodup)
    (hcanon : ∀ t ∈ tokens, isdigitStr t = true → natToStr (digitsVal t) = t) :
    collect_mapping tokens
      = (sortedTokens tokens).enum.map (fun p => (p.2, (p.1 : Int) + 1))
    ∧ (vocabKeys (collect_mapping tokens)).Perm tokens
    ∧ (vocabValues (collect_mapping tokens)).Nodup
    ∧ (0 : Int) ∉ vocabValues (collect_mapping tokens) := by
  refine ⟨collect_mapping_eq tokens htok hcanon, ?_, ?_, ?_⟩
  · rw [collect_mapping_keys tokens htok hcanon]
    exact sortedTokens_perm tokens hcanon
  · rw [collect_mapping_values tokens htok hcanon]
    refine List.Nodup.map ?_ (List.nodup_range _)
    intro a b hab
    have hab' : (a : Int) + 1 = (b : Int) + 1 := hab
    omega
  · rw [collect_mapping_values tokens htok hcanon]
    intro hmem
    obtain ⟨a, _, ha⟩ := List.mem_map.mp hmem
    omega

/-- Claim C8, witness on the tokens `b, 10, 2, a`. -/
theorem claim_C8_witness :
    collect_mapping [chars "b", chars "10", chars "2", chars "a"]
      = (sortedTokens [chars "b", chars "10", chars "2", chars "a"]).enum.map
          (fun p => (p.2, (p.1 : Int) + 1))
    ∧ (vocabKeys (collect_mapping [chars "b", chars "10", chars "2", chars "a"])).Perm
        [chars "b", chars "10", chars "2", chars "a"]
    ∧ (vocabValues (collect_mapping [chars "b", chars "10", chars "2", chars "a"])).Nodup
    ∧ (0 : Int) ∉ vocabValues (collect_mapping [chars "b", chars "10", chars "2", chars "a"]) :=
  claim_C8 [chars "b", chars "10", chars "2", chars "a"] (by decide) (by decide)

/-- Claim C9: clause parsing does not require a terminating `0` token — it
only strips trailing `0` characters and then trailing spaces before
splitting.  The line `1 2` parses to the clause `[1, 2]`, and in general
any space-joined valid literal list whose last literal does not end in
the digit `0` parses back without any terminator; there is no
missing-terminator error for clauses. -/
theorem claim_C9 :
    Clause.from_str (chars "1 2") = .ok [1, 2]
    ∧ (∀ (lits : List Int) (hne : lits ≠ []),
        Literals.init lits = .ok lits → (lits.getLast hne).natAbs % 10 ≠ 0 →
        Clause.from_str (joinC ' ' (lits.map intToStr)) = .ok lits) := by
  refine ⟨by decide, ?_⟩
  intro lits hne hv hlast
  exact clause_from_str_no_terminator lits hne hv hlast

/-- Claim C9, witness: the terminator-less line built from `[1, 2]`. -/
theorem claim_C9_witness :
    Clause.from_str (joinC ' ' ([1, 2].map intToStr)) = .ok [1, 2] :=
  claim_C9.2 [1, 2] (by decide) (by decide) (by decide)

/-- Claim C10: the empty assignment serializes to `v  0` (two spaces), and
parsing that string fails because the empty token before the `0` is
accumulated and rejected as a non-integer literal, so serialize-then-parse
does not round-trip for the empty assignment. -/
theorem claim_C10 :
    SATAssignment.to_str [] = chars "v  0"
    ∧ SATAssignment.from_str (chars "v  0")
      = .error (.parsingException (chars "Non-integer in literal list"))
    ∧ SATAssignment.from_str (SATAssignment.to_str []) ≠ .ok [] := by
  exact ⟨by decide, by decide, by decide⟩

end NSC

